import Mathlib

/-!
Verification of the nattramn HTTP page-server pipeline (`deps.ts`):
route matching with parameterized segments, marker-based template
splitting, response assembly, static resolution, response finalization
(ETag / compression / Content-Length) and the per-request dispatcher.

Embedding conventions: JavaScript strings are embedded as `List Char`
(`JStr`); JS `undefined` / `null` results are embedded as `Option`;
byte sequences (`Uint8Array`) as `List Nat`; the external collaborators
(filesystem reads, the remote bundle fetch, the gzip / brotli / SHA-1
algorithms) are parameters of the functions that consume them, since the
pipeline only decides whether and which to apply.
-/

/-- A JavaScript string, embedded as its list of characters. -/
abbrev JStr := List Char

/-- ASCII lowercasing of a string (used for case-insensitive matching and
for HTTP header-name normalization). -/
def lowerS (s : JStr) : JStr := s.map Char.toLower

/-- Index of the first occurrence of `sep` in `l` (the leftmost position `i`
such that `sep` is a prefix of `l.drop i`), or `none` when `sep` does not
occur.  This is the scan underlying JS `indexOf` / `split` for plain string
patterns. -/
def firstOcc (sep l : JStr) : Option Nat :=
  (List.range (l.length + 1)).find? (fun i => sep.isPrefixOf (l.drop i))

/-- The part of `l` before the first occurrence of `sep`, paired with the
part after it, if `sep` occurs in `l`. -/
def breakOn (sep l : JStr) : Option (JStr × JStr) :=
  (firstOcc sep l).map (fun i => (l.take i, l.drop (i + sep.length)))

/-- Fuel-driven splitting loop: cut the fragment before the first occurrence
of `sep` and recurse on the remainder.  The fuel only serves structural
termination; `l.length + 1` units always suffice because each cut removes at
least the (nonempty) separator. -/
def jsSplitFuel : Nat → JStr → JStr → List JStr
  | 0, _, l => [l]
  | fuel + 1, sep, l =>
    match breakOn sep l with
    | none => [l]
    | some p => p.1 :: jsSplitFuel fuel sep p.2

/-- JS `s.split(sep)` for a nonempty plain-string separator `sep`: the list
of fragments of `s` between consecutive occurrences of `sep`.  All call
sites in `deps.ts` pass nonempty separators; the empty-separator case is
given the harmless value `[l]` to keep the function total. -/
def jsSplit (sep l : JStr) : List JStr :=
  if sep = [] then [l] else jsSplitFuel (l.length + 1) sep l

/-- JS `s.includes(pat)`, equivalently `s.indexOf(pat) !== -1`, for a plain
string pattern: substring occurrence (the empty pattern always occurs). -/
def jsIncludes (s pat : JStr) : Bool := decide (pat = []) || (breakOn pat s).isSome

/-- JS `headers.get(name)?.includes(pat)`: `false` when the header is absent
(optional chaining yields `undefined`, which is falsy). -/
def optIncludes (o : Option JStr) (pat : JStr) : Bool :=
  match o with
  | none => false
  | some s => jsIncludes s pat

/-- The `'/'` separator that both the request path and the route pattern are
split on. -/
def slashSep : JStr := ['/']

/-- `canHandleRoute` from `deps.ts` (with the request's URL pathname already
extracted): split the request path and the route pattern on `'/'`, map each
pattern segment to `true` when it contains `':'` (placeholder) and to the
result of comparing it with the request segment at the same index otherwise,
keep only the passing comparisons, and require their count to equal both
segment counts. -/
def canHandleRoute (pathname route : JStr) : Bool :=
  let requestURL := jsSplit slashSep pathname
  let routeURL := jsSplit slashSep route
  let matchesArr := (routeURL.enum.map (fun v =>
      if jsIncludes v.2 [':'] then true
      else decide (requestURL[v.1]? = some v.2))).filter (fun b => b)
  decide (matchesArr.length = routeURL.length) && decide (matchesArr.length = requestURL.length)

/-- A JS object with string keys, as an ordered association list; a value of
`none` embeds the JS value `undefined`. -/
abbrev JObj := List (JStr × Option JStr)

/-- Spread-update `{...acc, [k]: v}` of a JS object: an existing key keeps
its position and gets the new value, a fresh key is appended. -/
def jsObjSet (acc : JObj) (k : JStr) (v : Option JStr) : JObj :=
  if acc.any (fun e => decide (e.1 = k)) then
    acc.map (fun e => if e.1 = k then (k, v) else e)
  else acc ++ [(k, v)]

/-- Property lookup `obj[k]` on a JS object: `some value` when the key is
present (the value itself may embed `undefined`), `none` when absent. -/
def jsObjGet (acc : JObj) (k : JStr) : Option (Option JStr) :=
  (acc.find? (fun e => decide (e.1 = k))).map (fun e => e.2)

/-- The body of the `reduce` in `routeParams`: for the pattern segment at
index `i`, the JS code computes
`keyname = curr.includes(':') ? curr.split(':')[1] : undefined` and inserts
`requestURL[i]` under `keyname` only when `keyname` is truthy (defined and
nonempty). -/
def paramEntry (requestURL : List JStr) (v : Nat × JStr) : Option (JStr × Option JStr) :=
  if jsIncludes v.2 [':'] then
    let keyname := (jsSplit [':'] v.2).getD 1 []
    if keyname = [] then none else some (keyname, requestURL[v.1]?)
  else none

/-- `routeParams` from `deps.ts` (with the request's URL pathname already
extracted): fold over the indexed pattern segments, spread-inserting an
entry for each segment with a truthy extracted parameter name. -/
def routeParams (pathname route : JStr) : JObj :=
  let requestURL := jsSplit slashSep pathname
  let routeURL := jsSplit slashSep route
  routeURL.enum.foldl (fun acc v =>
    match paramEntry requestURL v with
    | some e => jsObjSet acc e.1 e.2
    | none => acc) []

/-- The ordered list of parameter entries a route pattern declares against a
request path: one entry per pattern segment whose extracted name
(`segment.split(':')[1]`) is nonempty. -/
def paramEntries (pathname route : JStr) : JObj :=
  let requestURL := jsSplit slashSep pathname
  let routeURL := jsSplit slashSep route
  routeURL.enum.filterMap (paramEntry requestURL)

/-- The literal open marker tag `<nattramn-router>`. -/
def routerOpenTag : JStr := "<nattramn-router>".toList

/-- The literal close marker tag `</nattramn-router>`. -/
def routerCloseTag : JStr := "</nattramn-router>".toList

/-- Truthiness of a JS string-or-null value: `null`, `undefined` and the
empty string are falsy. -/
def jsTruthyOpt (o : Option JStr) : Bool :=
  match o with
  | none => false
  | some s => !s.isEmpty

/-- `generatePreContent` from `deps.ts`: in partial mode the result is
`null`; otherwise it is the part of the template before the first
`<nattramn-router>` tag, or the whole template when the tag is absent. -/
def generatePreContent (template : JStr) (answerWithPartialContent : Bool) : Option JStr :=
  if answerWithPartialContent then none
  else if jsIncludes template routerOpenTag then
    some ((jsSplit routerOpenTag template).getD 0 [])
  else some template

/-- `generatePostContent` from `deps.ts`: in partial mode the result is
`null`; otherwise it is the element at index 1 of the split at the first
`</nattramn-router>` tag (the part between the first and the second
occurrence, or after the first when it is the only one), or the whole
template when the tag is absent. -/
def generatePostContent (template : JStr) (answerWithPartialContent : Bool) : Option JStr :=
  if answerWithPartialContent then none
  else if jsIncludes template routerCloseTag then
    some ((jsSplit routerCloseTag template).getD 1 [])
  else some template

/-- The `PageData` produced by a page's handler: dynamic head and body
markup plus optional extra headers (`HeadersInit`, a name-value list). -/
structure PageData where
  head : JStr
  body : JStr
  headers : List (JStr × JStr)

/-- The pipeline's universal internal result type. -/
structure PartialResponse where
  status : Nat
  body : List Nat
  headers : List (JStr × JStr)
deriving DecidableEq

/-- A JS `Headers` object: name-value pairs whose names are stored
lowercased. -/
abbrev HeadersMap := List (JStr × JStr)

/-- `headers.set(k, v)`: remove any entry under the lowercased name and
record the new value (`set` keeps a single value per name; `get` observes
the same map regardless of entry order, so the new entry is appended). -/
def hset (hs : HeadersMap) (k v : JStr) : HeadersMap :=
  (hs.filter (fun e => !(decide (e.1 = lowerS k)))) ++ [(lowerS k, v)]

/-- `headers.get(k)`: the value recorded under the lowercased name, or
`none` (JS `null`) when absent. -/
def hget (hs : HeadersMap) (k : JStr) : Option JStr :=
  (hs.find? (fun e => decide (e.1 = lowerS k))).map (fun e => e.2)

/-- `headers.append(k, v)`: combine with an existing value under the same
name with `", "`, else add the entry. -/
def happend (hs : HeadersMap) (k v : JStr) : HeadersMap :=
  if hs.any (fun e => decide (e.1 = lowerS k)) then
    hs.map (fun e => if e.1 = lowerS k then (e.1, e.2 ++ (", ".toList) ++ v) else e)
  else hs ++ [(lowerS k, v)]

/-- `new Headers(init)`: append every pair of the initializer in order. -/
def hinit (init : List (JStr × JStr)) : HeadersMap :=
  init.foldl (fun acc e => happend acc e.1 e.2) []

/-- Whether a character is matched by `.` in a JS regular expression
(anything except a line terminator). -/
def dotMatches (c : Char) : Bool :=
  !(c = '\n' || c = '\r' || c.toNat = 8232 || c.toNat = 8233)

/-- Case-insensitive "is a prefix of" on strings (ASCII folding), as used
by an `/i`-flagged literal in a JS regular expression. -/
def ciHasPref (pat s : JStr) : Bool := (lowerS pat).isPrefixOf (lowerS s)

/-- The literal `<title>` of the title-extraction regular expression. -/
def titleOpenTag : JStr := "<title>".toList

/-- The literal `</title>` of the title-extraction regular expression. -/
def titleCloseTag : JStr := "</title>".toList

/-- Greedy capture of `(.+)<\/title>` (case-insensitive) at the start of
`t`: the longest nonempty line-terminator-free take of `t` that is
immediately followed by `</title>`. -/
def titleCaptureAt (t : JStr) : Option JStr :=
  let run := (t.takeWhile dotMatches).length
  ((List.range (run + 1)).reverse.find?
      (fun k => decide (1 ≤ k) && ciHasPref titleCloseTag (t.drop k))).map
    (fun k => t.take k)

/-- Leftmost-start scan of `head.match(/<title>(.+)<\/title>/i)`: at each
position where `<title>` matches case-insensitively, attempt the greedy
capture; the first position with a successful capture yields group 1. -/
def extractTitleAux : JStr → Option JStr
  | [] => none
  | c :: rest =>
    if ciHasPref titleOpenTag (c :: rest) then
      match titleCaptureAt ((c :: rest).drop titleOpenTag.length) with
      | some cap => some cap
      | none => extractTitleAux rest
    else extractTitleAux rest

/-- Group 1 of `head.match(/<title>(.+)<\/title>/i)`, or `none` when the
regular expression does not match. -/
def extractTitle (s : JStr) : Option JStr := extractTitleAux s

/-- Lowercase hexadecimal digit, as produced by `JSON.stringify` escapes. -/
def hexDigitChar (n : Nat) : Char :=
  if n < 10 then Char.ofNat (48 + n) else Char.ofNat (87 + n)

/-- `JSON.stringify` escaping of a single string character. -/
def jsonEscapeChar (c : Char) : JStr :=
  if c = '"' then ['\\', '"']
  else if c = '\\' then ['\\', '\\']
  else if c.toNat = 8 then ['\\', 'b']
  else if c.toNat = 9 then ['\\', 't']
  else if c.toNat = 10 then ['\\', 'n']
  else if c.toNat = 12 then ['\\', 'f']
  else if c.toNat = 13 then ['\\', 'r']
  else if c.toNat < 32 then
    ['\\', 'u', '0', '0', hexDigitChar (c.toNat / 16), hexDigitChar (c.toNat % 16)]
  else [c]

/-- `JSON.stringify({ title })`: the object literal with the single `title`
member, its value escaped as a JSON string. -/
def jsonStringifyTitle (title : JStr) : JStr :=
  ("\x7b\"title\":\"".toList) ++ (title.map jsonEscapeChar).flatten ++ ("\"\x7d".toList)

/-- UTF-8 encoding of one Unicode scalar value. -/
def utf8EncodeChar (c : Char) : List Nat :=
  let n := c.toNat
  if n < 128 then [n]
  else if n < 2048 then [192 + n / 64, 128 + n % 64]
  else if n < 65536 then [224 + n / 4096, 128 + n / 64 % 64, 128 + n % 64]
  else [240 + n / 262144, 128 + n / 4096 % 64, 128 + n / 64 % 64, 128 + n % 64]

/-- UTF-8 encoding of a string (`new TextEncoder().encode(s)`, and the
byte-level effect of `unescape(encodeURIComponent(s))`). -/
def utf8Encode (s : JStr) : List Nat := (s.map utf8EncodeChar).flatten

/-- The base64 alphabet. -/
def b64Alphabet : JStr :=
  "ABCDEFGHIJKLMNOPQRSTUVWXYZabcdefghijklmnopqrstuvwxyz0123456789+/".toList

/-- The base64 digit for a 6-bit value. -/
def b64Char (n : Nat) : Char := b64Alphabet.getD n '='

/-- `btoa` on a byte sequence: standard base64 with `=` padding. -/
def base64Encode : List Nat → JStr
  | [] => []
  | [a] => [b64Char (a / 4), b64Char (a % 4 * 16), '=', '=']
  | [a, b] => [b64Char (a / 4), b64Char (a % 4 * 16 + b / 16), b64Char (b % 16 * 4), '=']
  | a :: b :: c :: rest =>
    [b64Char (a / 4), b64Char (a % 4 * 16 + b / 16), b64Char (b % 16 * 4 + c / 64),
      b64Char (c % 64)] ++ base64Encode rest

/-- The literal `<head>` tag that `proxy` splits the pre-fragment at
(`preContent.split(/<head>/)` — a regular expression with no flags and no
metacharacters, hence a plain-string split). -/
def headTagMarker : JStr := "<head>".toList

/-- `Array.prototype.join('\n')` on the collected fragments: a fragment
holding JS `undefined` (embedded `none`) contributes the empty string. -/
def jsJoinLines (xs : List (Option JStr)) : JStr :=
  List.intercalate ['\n'] (xs.map (fun o => o.getD []))

/-- The result of `proxy`: the bodies of the `req.respond` calls it makes
itself while running (in order), and the `PartialResponse` it returns to
`handleRequests`. -/
structure ProxyOut where
  early : List JStr
  resp : PartialResponse

/-- `proxy` from `deps.ts`, for a handler that produced `pageData` (the
handler call itself and the `!pageData` throw are handled by the caller
model): computes the template fragments, forces `Content-Type: text/html`,
emits the out-of-band `X-Header-Updates` title header when the pre-fragment
is falsy, assembles the newline-joined body, and returns a status-200
response.  When the pre-fragment is truthy and `pageData.head` is falsy the
code calls `req.respond({ body: preContent })` directly and then falls
through to the rest of the assembly (there is no `return` after that
respond). -/
def proxy (template : JStr) (answerWithPartialContent : Bool) (pageData : PageData) : ProxyOut :=
  let body := pageData.body
  let head := pageData.head
  let preContent := generatePreContent template answerWithPartialContent
  let headers0 := hset (hinit pageData.headers) ("Content-Type".toList) ("text/html".toList)
  let headers1 :=
    if !(jsTruthyOpt preContent) && !head.isEmpty then
      match extractTitle head with
      | some title =>
        hset headers0 ("X-Header-Updates".toList)
          (base64Encode (utf8Encode (jsonStringifyTitle title)))
      | none => headers0
    else headers0
  let step1 : List JStr × List (Option JStr) :=
    if jsTruthyOpt preContent then
      let pre := preContent.getD []
      if !head.isEmpty then
        let preSplit := jsSplit headTagMarker pre
        ([], [preSplit[0]?, some (headTagMarker ++ head), preSplit[1]?])
      else ([pre], [])
    else ([], [])
  let responseBody := step1.2 ++
    [some (if answerWithPartialContent then body else routerOpenTag ++ body ++ routerCloseTag)]
  let postContent := generatePostContent template answerWithPartialContent
  let responseBody :=
    if jsTruthyOpt postContent then responseBody ++ [some (postContent.getD [])]
    else responseBody
  { early := step1.1,
    resp := { status := 200, headers := headers1, body := utf8Encode (jsJoinLines responseBody) } }

/-- Index of the last occurrence of a character in a string. -/
def lastIdxOf (c : Char) : JStr → Option Nat
  | [] => none
  | x :: xs =>
    match lastIdxOf c xs with
    | some i => some (i + 1)
    | none => if x = c then some 0 else none

/-- Deno std `extname` (Node-compatible, posix): the extension of the final
path component, i.e. its tail from the last `'.'`; empty when there is no
dot, when the only dot is the leading character of the component (dotfiles),
or when the component is exactly `".."`. -/
def extname (path : JStr) : JStr :=
  let base := (jsSplit slashSep path).getLastD []
  if base = ['.', '.'] then []
  else
    match lastIdxOf '.' base with
    | none => []
    | some i => if i = 0 then [] else base.drop i

/-- The `MEDIA_TYPES` extension-to-MIME table from `deps.ts` (including the
`mage/svg+xml` value it really contains for `.svg`). -/
def MEDIA_TYPES : List (JStr × JStr) :=
  [(".md".toList, "text/markdown".toList),
   (".css".toList, "text/css".toList),
   (".html".toList, "text/html".toList),
   (".htm".toList, "text/html".toList),
   (".json".toList, "application/json".toList),
   (".map".toList, "application/json".toList),
   (".txt".toList, "text/plain".toList),
   (".ts".toList, "text/typescript".toList),
   (".tsx".toList, "text/tsx".toList),
   (".js".toList, "application/javascript".toList),
   (".jsx".toList, "text/jsx".toList),
   (".gz".toList, "application/gzip".toList),
   (".webp".toList, "image/webp".toList),
   (".jpg".toList, "image/jpeg".toList),
   (".png".toList, "image/png".toList),
   (".svg".toList, "mage/svg+xml".toList)]

/-- `getContentType` from `deps.ts`: the `MEDIA_TYPES` entry for the path's
extension, or `none` (JS `undefined`). -/
def getContentType (path : JStr) : Option JStr :=
  (MEDIA_TYPES.find? (fun e => decide (e.1 = extname path))).map (fun e => e.2)

/-- The `server` part of the configuration; `compression` is `none` before
the `Nattramn` constructor applies the brotli default, `serveStatic` is the
optional static-serving pattern/path fragment. -/
structure ServerConfig where
  compression : Option JStr
  serveStatic : Option JStr
deriving DecidableEq

/-- A configured page: a route pattern and a template.  Its handler is an
external collaborator (opaque to the pipeline) and is modelled at the
dispatch boundary by the per-request `PageData` it produced, see
`handleRequest`. -/
structure Page where
  route : JStr
  template : JStr
deriving DecidableEq

/-- The `router` part of the configuration. -/
structure RouterConfig where
  pages : List Page
deriving DecidableEq

/-- The frozen configuration object. -/
structure Config where
  server : ServerConfig
  router : RouterConfig
deriving DecidableEq

/-- The compression method after the `Nattramn` constructor ran: the
configured one, defaulted to `'br'` when it was `undefined`. -/
def normalizedCompression (cfg : Config) : JStr :=
  cfg.server.compression.getD ("br".toList)

/-- Truthiness of `url.pathname.match(pat)` for the pattern strings this
configuration option holds (plain text without regular-expression
metacharacters): a match array is returned exactly when the pattern occurs
as a substring, and the empty pattern matches every string. -/
def jsMatchTruthy (s pat : JStr) : Bool := jsIncludes s pat

/-- The special literal path of the client bundle. -/
def clientBundlePath : JStr := "/nattramn-client.js".toList

/-- The branch `handleRequest` selects for a request path: the client-bundle
special case, a static file at some path, the first configured page whose
route matches (by index), or one of the two `throw new Error(...)`
not-found signals. -/
inductive DispatchDecision where
  | clientBundle : DispatchDecision
  | staticFile : JStr → DispatchDecision
  | page : Nat → DispatchDecision
  | notFoundFile : DispatchDecision
  | notFoundRoute : DispatchDecision
deriving DecidableEq

/-- The branch structure of `handleRequest` from `deps.ts`:
`staticPath = url.pathname.match(config.server.serveStatic ?? '')`, then for
extensioned paths the client-bundle literal, the `staticPath` branch (serve
the raw pathname), the `serveStatic`-truthy branch (serve
`'/' + serveStatic + pathname`), else throw "Could not find file."; for
extensionless paths the first page whose route matches, else throw "Could
not find route.". -/
def dispatch (cfg : Config) (pathname : JStr) : DispatchDecision :=
  let staticPath := jsMatchTruthy pathname (cfg.server.serveStatic.getD [])
  let hasExtention := !(extname pathname).isEmpty
  if hasExtention then
    if pathname = clientBundlePath then .clientBundle
    else if staticPath then .staticFile pathname
    else if jsTruthyOpt cfg.server.serveStatic then
      .staticFile (('/' :: cfg.server.serveStatic.getD []) ++ pathname)
    else .notFoundFile
  else
    match cfg.router.pages.findIdx? (fun p => canHandleRoute pathname p.route) with
    | some i => .page i
    | none => .notFoundRoute

/-- `serveStatic` from `deps.ts` with the filesystem as a parameter:
prepend `'.'` to the path, read the file (a `none` read embeds the
`Deno.open` / `Deno.readAll` failure, which the caller's catch turns into
404), attach the content type when the extension is known, status 200. -/
def serveStaticFile (fsRead : JStr → Option (List Nat)) (filePath : JStr) :
    Option PartialResponse :=
  let filePath := '.' :: filePath
  match fsRead filePath with
  | none => none
  | some bytes =>
    let headers : HeadersMap :=
      match getContentType filePath with
      | some ct => hset [] ("content-type".toList) ct
      | none => []
    some { status := 200, headers := headers, body := bytes }

/-- `handleRequest` from `deps.ts`, over the dispatch decision.  External
collaborators are parameters: `handlers i` is the `PageData` the handler of
page `i` produced for this request (`none` embeds a falsy result, which
makes `proxy` throw), `fsRead` is the filesystem, `bundle` the fetched
remote client bundle (`none` embeds a failed fetch).  The result pairs the
bodies of any `req.respond` calls made inside `proxy` with the returned
`PartialResponse`; `none` embeds a thrown error, funneled to the caller's
uniform 404 handler. -/
def handleRequest (cfg : Config) (pathname : JStr) (answerWithPartialContent : Bool)
    (handlers : Nat → Option PageData) (fsRead : JStr → Option (List Nat))
    (bundle : Option (List Nat)) : List JStr × Option PartialResponse :=
  match dispatch cfg pathname with
  | .clientBundle =>
    match bundle with
    | some b =>
      ([], some { status := 200,
                  headers := hset [] ("Content-Type".toList) ("application/javascript".toList),
                  body := b })
    | none => ([], none)
  | .staticFile p => ([], serveStaticFile fsRead p)
  | .page i =>
    match handlers i with
    | some pd =>
      match cfg.router.pages[i]? with
      | some pg =>
        let out := proxy pg.template answerWithPartialContent pd
        (out.early, some out.resp)
      | none => ([], none)
    | none => ([], none)
  | .notFoundFile => ([], none)
  | .notFoundRoute => ([], none)

/-- The finalization performed by `handleRequests` on a successful
`PartialResponse`, with the external algorithms as parameters: set `ETag`
to the SHA-1 checksum, default `Cache-Control`, negotiate compression
(`gzip` when the configured method is `gzip` and `accept-encoding` contains
`gzip`; `br` when the configured method is `br` and `accept-encoding`
contains `br`), and set `Content-Length` to the final body's byte length. -/
def finalize (sha1hex : List Nat → JStr) (gzipEncode brotliEncode : List Nat → List Nat)
    (compression : JStr) (acceptEncoding : Option JStr) (resp : PartialResponse) :
    PartialResponse :=
  let headers := hset resp.headers ("ETag".toList) (sha1hex resp.body)
  let headers :=
    if hget headers ("Cache-Control".toList) = none then
      hset headers ("Cache-Control".toList) ("public, max-age=3600".toList)
    else headers
  let useGzip := decide (compression = "gzip".toList) && optIncludes acceptEncoding ("gzip".toList)
  let useBrotli := decide (compression = "br".toList) && optIncludes acceptEncoding ("br".toList)
  let headers := if useGzip then hset headers ("Content-Encoding".toList) ("gzip".toList) else headers
  let body := if useGzip then gzipEncode resp.body else resp.body
  let headers := if useBrotli then hset headers ("Content-Encoding".toList) ("br".toList) else headers
  let body := if useBrotli then brotliEncode body else body
  let headers := hset headers ("Content-Length".toList) ((Nat.repr body.length).toList)
  { status := resp.status, headers := headers, body := body }

/-- The fixed plain-text body of the uniform 404 response. -/
def notFoundBody : JStr := "Not Found".toList

/-- All responses `handleRequests` writes to the client for one request, in
order: any `req.respond` bodies emitted inside `proxy` (the server defaults
their status to 200), then either the finalized successful response or the
uniform 404 when `handleRequest` threw. -/
def sentResponses (cfg : Config) (pathname : JStr) (answerWithPartialContent : Bool)
    (handlers : Nat → Option PageData) (fsRead : JStr → Option (List Nat))
    (bundle : Option (List Nat)) (sha1hex : List Nat → JStr)
    (gzipEncode brotliEncode : List Nat → List Nat) (acceptEncoding : Option JStr) :
    List PartialResponse :=
  let hr := handleRequest cfg pathname answerWithPartialContent handlers fsRead bundle
  let earlyList := hr.1.map (fun b =>
    { status := 200, headers := ([] : HeadersMap), body := utf8Encode b })
  match hr.2 with
  | some pr =>
    earlyList ++ [finalize sha1hex gzipEncode brotliEncode (normalizedCompression cfg)
      acceptEncoding pr]
  | none =>
    earlyList ++ [{ status := 404, headers := ([] : HeadersMap), body := utf8Encode notFoundBody }]

theorem breakOn_eq {sep l a b : JStr} (h : breakOn sep l = some (a, b)) :
    l = a ++ sep ++ b := by
  unfold breakOn at h
  cases hf : firstOcc sep l with
  | none => rw [hf] at h; simp at h
  | some i =>
    rw [hf] at h
    simp only [Option.map_some', Option.some.injEq] at h
    have ha : l.take i = a := congrArg Prod.fst h
    have hb : l.drop (i + sep.length) = b := congrArg Prod.snd h
    subst ha; subst hb
    unfold firstOcc at hf
    have hp0 := List.find?_some hf
    have hp : sep.isPrefixOf (l.drop i) = true := hp0
    obtain ⟨t, ht⟩ := List.isPrefixOf_iff_prefix.mp hp
    have hsplit : l.take i ++ l.drop i = l := List.take_append_drop i l
    have hdrop : l.drop (i + sep.length) = t := by
      rw [← List.drop_drop sep.length i l, ← ht, List.drop_left]
    rw [hdrop, List.append_assoc, ht, hsplit]

theorem breakOn_isSome {sep : JStr} (hsep : sep ≠ []) (x y : JStr) :
    (breakOn sep (x ++ sep ++ y)).isSome = true := by
  unfold breakOn
  rw [Option.isSome_map']
  rw [firstOcc, List.find?_isSome]
  refine ⟨x.length, List.mem_range.mpr ?_, ?_⟩
  · simp only [List.length_append]
    omega
  · show sep.isPrefixOf ((x ++ sep ++ y).drop x.length) = true
    rw [List.append_assoc, List.drop_left]
    exact List.isPrefixOf_iff_prefix.mpr ⟨y, rfl⟩

theorem breakOn_length_lt {sep l a b : JStr} (hsep : sep ≠ [])
    (h : breakOn sep l = some (a, b)) : b.length < l.length := by
  have he := breakOn_eq h
  have hl : 0 < sep.length := List.length_pos.mpr hsep
  have := congrArg List.length he
  simp only [List.length_append] at this
  omega

theorem jsSplitFuel_irrel {sep : JStr} (hsep : sep ≠ []) :
    ∀ (f1 : Nat) (l : JStr) (f2 : Nat), l.length < f1 → l.length < f2 →
      jsSplitFuel f1 sep l = jsSplitFuel f2 sep l := by
  intro f1
  induction f1 with
  | zero => intro l f2 h1 h2; omega
  | succ f1 ih =>
    intro l f2 h1 h2
    cases f2 with
    | zero => omega
    | succ f2 =>
      simp only [jsSplitFuel]
      cases hb : breakOn sep l with
      | none => rfl
      | some p =>
        have hlb : p.2.length < l.length := breakOn_length_lt hsep hb
        dsimp only
        rw [ih p.2 f2 (by omega) (by omega)]

theorem jsSplit_eq_of_none {sep l : JStr} (h : breakOn sep l = none) :
    jsSplit sep l = [l] := by
  unfold jsSplit
  split
  · rfl
  · simp only [jsSplitFuel, h]

theorem jsSplit_eq_of_some {sep l : JStr} (hsep : sep ≠ []) {a b : JStr}
    (h : breakOn sep l = some (a, b)) : jsSplit sep l = a :: jsSplit sep b := by
  unfold jsSplit
  rw [if_neg hsep, if_neg hsep]
  have hlb : b.length < l.length := breakOn_length_lt hsep h
  have step : jsSplitFuel (l.length + 1) sep l = a :: jsSplitFuel l.length sep b := by
    simp only [jsSplitFuel, h]
  rw [step, jsSplitFuel_irrel hsep l.length b (b.length + 1) (by omega) (by omega)]

theorem jsSplit_ne_nil (sep l : JStr) : jsSplit sep l ≠ [] := by
  unfold jsSplit
  split
  · simp
  · simp only [jsSplitFuel]
    cases hb : breakOn sep l <;> simp

theorem filter_id_length_iff (l : List Bool) :
    ((l.filter (fun b => b)).length = l.length) ↔ ∀ b ∈ l, b = true := by
  constructor
  · intro h b hb
    have hs : List.Sublist (l.filter (fun b => b)) l := List.filter_sublist l
    have he : l.filter (fun b => b) = l := hs.eq_of_length h
    simpa using List.filter_eq_self.mp he b hb
  · intro h
    have he : l.filter (fun b => b) = l :=
      List.filter_eq_self.mpr (fun a ha => by simpa using h a ha)
    rw [he]

/-- C1: for every request path and route pattern, `canHandleRoute` returns
`true` if and only if the `'/'`-split segment counts of the request path
and the pattern are equal and every pattern segment not containing `':'`
equals the request path's segment at the same index (segments containing
`':'` match any single segment; any count or literal mismatch gives
`false`). -/
theorem canHandleRoute_correct (pathname route : JStr) :
    canHandleRoute pathname route = true ↔
      ((jsSplit slashSep pathname).length = (jsSplit slashSep route).length ∧
        ∀ (i : Nat) (seg : JStr), (jsSplit slashSep route)[i]? = some seg →
          jsIncludes seg [':'] = false →
          (jsSplit slashSep pathname)[i]? = some seg) := by
  unfold canHandleRoute
  simp only [Bool.and_eq_true, decide_eq_true_eq]
  set ru := jsSplit slashSep pathname with hru
  set ro := jsSplit slashSep route with hro
  set f : Nat × JStr → Bool := fun v =>
    if jsIncludes v.2 [':'] then true else decide (ru[v.1]? = some v.2) with hf
  have hmaplen : (ro.enum.map f).length = ro.length := by
    simp [List.length_map, List.enum_length]
  have hkey : (((ro.enum.map f).filter (fun b => b)).length = ro.length) ↔
      (∀ v ∈ ro.enum, f v = true) := by
    rw [← hmaplen, filter_id_length_iff]
    constructor
    · intro h v hv
      exact h (f v) (List.mem_map_of_mem f hv)
    · intro h b hb
      obtain ⟨v, hv, rfl⟩ := List.mem_map.mp hb
      exact h v hv
  constructor
  · rintro ⟨h1, h2⟩
    have hall := hkey.mp h1
    refine ⟨by omega, ?_⟩
    intro i seg hseg hinc
    have hv : (i, seg) ∈ ro.enum := List.mem_enum_iff_getElem?.mpr hseg
    have hfv := hall (i, seg) hv
    rw [hf] at hfv
    simp only [hinc, Bool.false_eq_true, if_false] at hfv
    exact of_decide_eq_true hfv
  · rintro ⟨hlen, hmatch⟩
    have hall : ∀ v ∈ ro.enum, f v = true := by
      intro v hv
      have hseg : ro[v.1]? = some v.2 := List.mem_enum_iff_getElem?.mp hv
      rw [hf]
      cases hc : jsIncludes v.2 [':'] with
      | true => simp [hc]
      | false =>
        simp only [hc, Bool.false_eq_true, if_false]
        exact decide_eq_true (hmatch v.1 v.2 hseg hc)
    have h1 := hkey.mpr hall
    exact ⟨h1, by omega⟩
theorem find?_map_objUpd (m : JObj) (k q : JStr) (v : Option JStr) :
    ((m.map (fun e => if e.1 = k then (k, v) else e)).find? (fun e => decide (e.1 = q))) =
      if q = k then ((m.find? (fun e => decide (e.1 = k))).map (fun _ => (k, v)))
      else m.find? (fun e => decide (e.1 = q)) := by
  induction m with
  | nil => by_cases h : q = k <;> simp [h]
  | cons e m ih =>
    simp only [List.map_cons]
    by_cases hek : e.1 = k
    · by_cases hqk : q = k
      · subst hqk
        rw [if_pos rfl] at ih ⊢
        rw [if_pos hek]
        rw [List.find?_cons_of_pos _ (by simp), List.find?_cons_of_pos _ (by simpa using hek)]
        simp
      · rw [if_neg hqk] at ih ⊢
        rw [if_pos hek]
        rw [List.find?_cons_of_neg _ (by simp; exact fun h => hqk h.symm)]
        rw [List.find?_cons_of_neg _ (by simp; intro h; exact hqk (by rw [← hek, h]))]
        exact ih
    · by_cases hqk : q = k
      · subst hqk
        rw [if_pos rfl] at ih ⊢
        rw [if_neg hek]
        rw [List.find?_cons_of_neg _ (by simpa using hek),
          List.find?_cons_of_neg _ (by simpa using hek)]
        exact ih
      · rw [if_neg hqk] at ih ⊢
        rw [if_neg hek]
        by_cases heq : e.1 = q
        · rw [List.find?_cons_of_pos _ (by simpa using heq),
            List.find?_cons_of_pos _ (by simpa using heq)]
        · rw [List.find?_cons_of_neg _ (by simpa using heq),
            List.find?_cons_of_neg _ (by simpa using heq)]
          exact ih

theorem jsObjGet_jsObjSet (m : JObj) (k q : JStr) (v : Option JStr) :
    jsObjGet (jsObjSet m k v) q = if q = k then some v else jsObjGet m q := by
  unfold jsObjSet jsObjGet
  by_cases hany : m.any (fun e => decide (e.1 = k)) = true
  · rw [if_pos hany, find?_map_objUpd]
    by_cases hqk : q = k
    · subst hqk
      rw [if_pos rfl, if_pos rfl]
      obtain ⟨x, hx, hpx⟩ := List.any_eq_true.mp hany
      have hsome : ((m.find? (fun e => decide (e.1 = q))).isSome) = true :=
        List.find?_isSome.mpr ⟨x, hx, hpx⟩
      obtain ⟨e, he⟩ := Option.isSome_iff_exists.mp hsome
      rw [he]
      simp
    · rw [if_neg hqk, if_neg hqk]
  · rw [if_neg hany, List.find?_append]
    by_cases hqk : q = k
    · subst hqk
      have hnone : m.find? (fun e => decide (e.1 = q)) = none := by
        rw [List.find?_eq_none]
        intro x hx hc
        exact hany (List.any_eq_true.mpr ⟨x, hx, hc⟩)
      rw [hnone, if_pos rfl]
      rw [List.find?_cons_of_pos _ (by simp)]
      simp
    · rw [if_neg hqk]
      have h2 : (([(k, v)] : JObj).find? (fun e => decide (e.1 = q))) = none := by
        rw [List.find?_cons_of_neg _ (by simp; exact fun h => hqk h.symm)]
        rfl
      rw [h2]
      simp

theorem routeParams_foldl_lookup (requestURL : List JStr) (l : List (Nat × JStr))
    (acc : JObj) (q : JStr) :
    jsObjGet (l.foldl (fun acc v =>
        match paramEntry requestURL v with
        | some e => jsObjSet acc e.1 e.2
        | none => acc) acc) q =
      (match (l.filterMap (paramEntry requestURL)).reverse.find? (fun e => decide (e.1 = q)) with
      | some e => some e.2
      | none => jsObjGet acc q) := by
  induction l using List.reverseRecOn generalizing acc with
  | nil => simp
  | append_singleton l a ih =>
    rw [List.foldl_append]
    simp only [List.foldl_cons, List.foldl_nil]
    rw [List.filterMap_append, List.reverse_append]
    cases hpa : paramEntry requestURL a with
    | none =>
      have hfm : ([a].filterMap (paramEntry requestURL)) = [] := by
        simp only [List.filterMap_cons, hpa, List.filterMap_nil]
      simp only [hpa]
      rw [hfm]
      simp only [List.reverse_nil, List.nil_append]
      exact ih acc
    | some e =>
      have hfm : ([a].filterMap (paramEntry requestURL)) = [e] := by
        simp only [List.filterMap_cons, hpa, List.filterMap_nil]
      simp only [hpa]
      rw [jsObjGet_jsObjSet, hfm]
      simp only [List.reverse_singleton, List.singleton_append]
      by_cases hq : q = e.1
      · rw [if_pos hq]
        rw [List.find?_cons_of_pos _ (by simp [hq])]
      · rw [if_neg hq]
        rw [List.find?_cons_of_neg _ (by simp; exact fun h => hq h.symm)]
        exact ih acc

/-- C2 counterexample: for request path `/x` and route pattern `/:`, the
pattern segment `":"` at index 1 contains `':'`, yet `routeParams` produces
no entry at all — the claim promises exactly one entry for that segment
(keyed by the substring after the colon, here the empty string, valued
`"x"`), but the JS truthiness test `if (keyname)` rejects the empty
extracted name. -/
theorem routeParams_missing_entry :
    routeParams ("/x".toList) ("/:".toList) = [] ∧
    (jsSplit slashSep ("/:".toList))[1]? = some [':'] ∧
    jsIncludes [':'] [':'] = true := by decide

/-- C2 amended: looking up any key `q` in the mapping `routeParams` builds
returns exactly the value of the last pattern segment whose extracted
parameter name (`segment.split(':')[1]`, the text between the first colon
and the second colon or segment end) is nonempty and equals `q`, that value
being the request path's segment at the same index (`undefined`, embedded
`none`, when the request path is shorter); segments without `':'` or with
an empty extracted name contribute no entry. -/
theorem routeParams_lookup (pathname route q : JStr) :
    jsObjGet (routeParams pathname route) q =
      ((paramEntries pathname route).reverse.find? (fun e => decide (e.1 = q))).map
        (fun e => e.2) := by
  simp only [routeParams, paramEntries]
  rw [routeParams_foldl_lookup]
  cases h : ((jsSplit slashSep route).enum.filterMap
      (paramEntry (jsSplit slashSep pathname))).reverse.find? (fun e => decide (e.1 = q)) with
  | none => simp [jsObjGet]
  | some e => simp

theorem hget_hset_self (hs : HeadersMap) (k v : JStr) : hget (hset hs k v) k = some v := by
  unfold hget hset
  rw [List.find?_append]
  have h1 : (hs.filter (fun e => !(decide (e.1 = lowerS k)))).find?
      (fun e => decide (e.1 = lowerS k)) = none := by
    rw [List.find?_eq_none]
    intro x hx
    have hx2 := (List.mem_filter.mp hx).2
    simpa using hx2
  rw [h1, Option.none_or]
  rw [List.find?_cons_of_pos _ (by simp)]
  rfl

theorem hget_hset_ne (hs : HeadersMap) (k q v : JStr) (h : lowerS q ≠ lowerS k) :
    hget (hset hs k v) q = hget hs q := by
  unfold hget hset
  rw [List.find?_append]
  have h2 : (([(lowerS k, v)] : HeadersMap).find? (fun e => decide (e.1 = lowerS q))) = none := by
    rw [List.find?_cons_of_neg _ (by simp; exact fun hh => h hh.symm)]
    rfl
  rw [h2]
  have h3 : (hs.filter (fun e => !(decide (e.1 = lowerS k)))).find?
      (fun e => decide (e.1 = lowerS q)) = hs.find? (fun e => decide (e.1 = lowerS q)) := by
    induction hs with
    | nil => rfl
    | cons e hs ih =>
      by_cases he : e.1 = lowerS k
      · rw [List.filter_cons_of_neg (by simp [he])]
        rw [List.find?_cons_of_neg _ (by simp [he]; exact fun hh => h hh.symm)]
        exact ih
      · rw [List.filter_cons_of_pos (by simpa using he)]
        by_cases heq : e.1 = lowerS q
        · rw [List.find?_cons_of_pos _ (by simpa using heq),
            List.find?_cons_of_pos _ (by simpa using heq)]
        · rw [List.find?_cons_of_neg _ (by simpa using heq),
            List.find?_cons_of_neg _ (by simpa using heq)]
          exact ih
  rw [h3]
  cases hs.find? (fun e => decide (e.1 = lowerS q)) <;> simp
theorem breakOn_isSome_of_decomp {sep : JStr} (hsep : sep ≠ []) (x y l : JStr)
    (hl : l = x ++ sep ++ y) : (breakOn sep l).isSome = true := by
  subst hl
  unfold breakOn
  rw [Option.isSome_map']
  rw [firstOcc, List.find?_isSome]
  refine ⟨x.length, List.mem_range.mpr ?_, ?_⟩
  · simp only [List.length_append]
    omega
  · show sep.isPrefixOf ((x ++ sep ++ y).drop x.length) = true
    rw [List.append_assoc, List.drop_left]
    exact List.isPrefixOf_iff_prefix.mpr ⟨y, rfl⟩

/-- C7: for a template in which the open marker `<nattramn-router>` occurs
exactly once (formalized: it has exactly one decomposition around the open
marker) and the close marker `</nattramn-router>` occurs exactly once, and
the close marker follows the open one, splitting with `isPartial = false`
recovers the prefix and the suffix: concatenating `generatePreContent`'s
result, the open marker, the original inner content, the close marker and
`generatePostContent`'s result is exactly the original template. -/
theorem template_reconstruction (template a m b : JStr)
    (hdecomp : template = a ++ routerOpenTag ++ m ++ routerCloseTag ++ b)
    (hopen : ∀ x y, template = x ++ routerOpenTag ++ y →
      x = a ∧ y = m ++ routerCloseTag ++ b)
    (hclose : ∀ x y, template = x ++ routerCloseTag ++ y →
      x = a ++ routerOpenTag ++ m ∧ y = b) :
    generatePreContent template false = some a ∧
    generatePostContent template false = some b ∧
    a ++ routerOpenTag ++ m ++ routerCloseTag ++ b = template := by
  have hT : template = a ++ routerOpenTag ++ (m ++ routerCloseTag ++ b) := by
    rw [hdecomp]
    simp [List.append_assoc]
  have h1 : (breakOn routerOpenTag template).isSome = true :=
    breakOn_isSome_of_decomp (by decide) a (m ++ routerCloseTag ++ b) template hT
  obtain ⟨p, hp⟩ := Option.isSome_iff_exists.mp h1
  have hx := breakOn_eq hp
  obtain ⟨hxa, hyrest⟩ := hopen p.1 p.2 hx
  have hT2 : template = (a ++ routerOpenTag ++ m) ++ routerCloseTag ++ b := by
    rw [hdecomp]
  have h2 : (breakOn routerCloseTag template).isSome = true :=
    breakOn_isSome_of_decomp (by decide) (a ++ routerOpenTag ++ m) b template hT2
  obtain ⟨q, hq⟩ := Option.isSome_iff_exists.mp h2
  have hy := breakOn_eq hq
  obtain ⟨hua, hvb⟩ := hclose q.1 q.2 hy
  have hbnone : breakOn routerCloseTag q.2 = none := by
    cases hbb : breakOn routerCloseTag q.2 with
    | none => rfl
    | some r =>
      exfalso
      have hr := breakOn_eq hbb
      have hdec2 : template = ((q.1 ++ routerCloseTag) ++ r.1) ++ routerCloseTag ++ r.2 := by
        rw [hy, hr]
        simp [List.append_assoc]
      have := (hclose ((q.1 ++ routerCloseTag) ++ r.1) r.2 hdec2).1
      rw [hua] at this
      have hlen := congrArg List.length this
      simp only [List.length_append] at hlen
      have : 0 < routerCloseTag.length := by decide
      omega
  refine ⟨?_, ?_, hdecomp.symm⟩
  · unfold generatePreContent
    rw [if_neg (by simp)]
    have hinc : jsIncludes template routerOpenTag = true := by
      unfold jsIncludes
      rw [h1, Bool.or_true]
    rw [if_pos hinc]
    rw [jsSplit_eq_of_some (by decide) hp]
    rw [hxa]
    rfl
  · unfold generatePostContent
    rw [if_neg (by simp)]
    have hinc : jsIncludes template routerCloseTag = true := by
      unfold jsIncludes
      rw [h2, Bool.or_true]
    rw [if_pos hinc]
    rw [jsSplit_eq_of_some (by decide) hq]
    rw [jsSplit_eq_of_none hbnone]
    rw [hvb]
    rfl

theorem unique_occurrence_bridge (sep l : JStr) (i0 : Nat)
    (h : ((List.range (l.length + 1)).filter (fun i => sep.isPrefixOf (l.drop i))) = [i0]) :
    ∀ x y, l = x ++ sep ++ y → x = l.take i0 ∧ y = l.drop (i0 + sep.length) := by
  intro x y hxy
  have hmem : x.length ∈ (List.range (l.length + 1)).filter
      (fun i => sep.isPrefixOf (l.drop i)) := by
    rw [List.mem_filter]
    constructor
    · rw [List.mem_range]
      have hlen := congrArg List.length hxy
      simp only [List.length_append] at hlen
      omega
    · show sep.isPrefixOf (l.drop x.length) = true
      rw [hxy, List.append_assoc, List.drop_left]
      exact List.isPrefixOf_iff_prefix.mpr ⟨y, rfl⟩
  rw [h, List.mem_singleton] at hmem
  constructor
  · rw [← hmem, hxy, List.append_assoc, List.take_left]
  · rw [← hmem, hxy, List.append_assoc, ← List.drop_drop, List.drop_left, List.drop_left]

/-- C7 witness: the concrete template `A<nattramn-router>M</nattramn-router>B`
(one open marker, at index 1, and one close marker, at index 19) splits into
pre `A` and post `B`, and the concatenation reconstructs it. -/
theorem template_reconstruction_witness :
    generatePreContent ("A<nattramn-router>M</nattramn-router>B".toList) false =
      some ("A".toList) ∧
    generatePostContent ("A<nattramn-router>M</nattramn-router>B".toList) false =
      some ("B".toList) ∧
    "A".toList ++ routerOpenTag ++ "M".toList ++ routerCloseTag ++ "B".toList =
      ("A<nattramn-router>M</nattramn-router>B".toList) := by
  have hopen := unique_occurrence_bridge routerOpenTag
    ("A<nattramn-router>M</nattramn-router>B".toList) 1 (by decide)
  have hclose := unique_occurrence_bridge routerCloseTag
    ("A<nattramn-router>M</nattramn-router>B".toList) 19 (by decide)
  exact template_reconstruction ("A<nattramn-router>M</nattramn-router>B".toList)
    ("A".toList) ("M".toList) ("B".toList) (by decide)
    (fun x y hxy => by
      obtain ⟨h1, h2⟩ := hopen x y hxy
      exact ⟨h1.trans (by decide), h2.trans (by decide)⟩)
    (fun x y hxy => by
      obtain ⟨h1, h2⟩ := hclose x y hxy
      exact ⟨h1.trans (by decide), h2.trans (by decide)⟩)
/-- C9 counterexample: for the page template
`<body><nattramn-router></nattramn-router>` (pre-fragment `<body>` non-null
and nonempty) and a handler returning nonempty head `H`, the pre-fragment
contains no `<head>` tag, so the split yields a single element — not the
claimed two —, the `preSplit[1]` access is out of bounds (JS `undefined`),
and the assembled body contains the undefined fragment joined as an empty
line (the `\n\n` between `<head>H` and the wrapped body). -/
theorem preSplit_out_of_bounds :
    generatePreContent ("<body><nattramn-router></nattramn-router>".toList) false =
      some ("<body>".toList) ∧
    "<body>".toList ≠ ([] : JStr) ∧
    "H".toList ≠ ([] : JStr) ∧
    (jsSplit headTagMarker ("<body>".toList)).length = 1 ∧
    (jsSplit headTagMarker ("<body>".toList))[1]? = none ∧
    (proxy ("<body><nattramn-router></nattramn-router>".toList) false
        ⟨"H".toList, "B".toList, []⟩).resp.body =
      utf8Encode ("<body>\n<head>H\n\n<nattramn-router>B</nattramn-router>".toList) := by
  decide

/-- C9 amended: the split of a non-null pre-fragment at the `<head>` tag has
at least two elements — so the `preSplit[1]` access is in bounds — exactly
when the pre-fragment does contain `<head>`; without that containment the
split is the one-element list and the access yields `undefined`. -/
theorem preSplit_inbounds (template pre : JStr)
    (hpre : generatePreContent template false = some pre)
    (hcontains : jsIncludes pre headTagMarker = true) :
    2 ≤ (jsSplit headTagMarker pre).length ∧ (jsSplit headTagMarker pre)[1]? ≠ none := by
  have hsome : (breakOn headTagMarker pre).isSome = true := by
    unfold jsIncludes at hcontains
    rw [Bool.or_eq_true] at hcontains
    cases hcontains with
    | inl hc => exact absurd (of_decide_eq_true hc) (by decide)
    | inr hc => exact hc
  obtain ⟨p, hp⟩ := Option.isSome_iff_exists.mp hsome
  rw [jsSplit_eq_of_some (by decide) hp]
  cases hsp : jsSplit headTagMarker p.2 with
  | nil => exact absurd hsp (jsSplit_ne_nil _ _)
  | cons hd tl =>
    constructor
    · simp
    · simp

/-- C9 witness: for the template
`<html><head></head><nattramn-router></nattramn-router>` the pre-fragment
`<html><head></head>` contains `<head>` and its split has two elements. -/
theorem preSplit_inbounds_witness :
    2 ≤ (jsSplit headTagMarker ("<html><head></head>".toList)).length ∧
    (jsSplit headTagMarker ("<html><head></head>".toList))[1]? ≠ none :=
  preSplit_inbounds ("<html><head></head><nattramn-router></nattramn-router>".toList)
    ("<html><head></head>".toList) (by decide) (by decide)

/-- C3: at the failing input — template
`PRE<nattramn-router></nattramn-router>POST`, non-partial request, handler
head empty (falsy) — `proxy` does call `req.respond({ body: preContent })`
with only the pre-fragment, but there is no `return` after it: assembly
continues, and the `PartialResponse` handed back to `handleRequests` (which
responds again on the same request) still carries the marker-wrapped body
and the post-fragment; the request loop therefore writes two status-200
responses for this single request. -/
theorem proxy_no_short_circuit :
    (proxy ("PRE<nattramn-router></nattramn-router>POST".toList) false
        ⟨[], "B".toList, []⟩).early = ["PRE".toList] ∧
    (proxy ("PRE<nattramn-router></nattramn-router>POST".toList) false
        ⟨[], "B".toList, []⟩).resp.body =
      utf8Encode ("<nattramn-router>B</nattramn-router>\nPOST".toList) ∧
    (proxy ("PRE<nattramn-router></nattramn-router>POST".toList) false
        ⟨[], "B".toList, []⟩).resp.status = 200 ∧
    (sentResponses ⟨⟨some ("none".toList), none⟩, ⟨[⟨"/p".toList,
          "PRE<nattramn-router></nattramn-router>POST".toList⟩]⟩⟩ ("/p".toList) false
        (fun _ => some ⟨[], "B".toList, []⟩) (fun _ => none) none
        (fun _ => []) (fun b => b) (fun b => b) none).map PartialResponse.status =
      [200, 200] := by
  decide
/-- C6: for every page request in partial mode whose `pageData.head`
matches the title regular expression with group `t`, the assembled
response's headers carry `X-Header-Updates` equal to the base64 encoding of
the UTF-8 bytes of `JSON.stringify({ title: t })`. -/
theorem xHeaderUpdates_title (template : JStr) (pd : PageData) (t : JStr)
    (h : extractTitle pd.head = some t) :
    hget (proxy template true pd).resp.headers ("X-Header-Updates".toList) =
      some (base64Encode (utf8Encode (jsonStringifyTitle t))) := by
  have hhead : pd.head.isEmpty = false := by
    cases hh : pd.head with
    | nil => rw [hh] at h; simp [extractTitle, extractTitleAux] at h
    | cons c r => simp
  have hresp : (proxy template true pd).resp.headers =
      hset (hset (hinit pd.headers) ("Content-Type".toList) ("text/html".toList))
        ("X-Header-Updates".toList) (base64Encode (utf8Encode (jsonStringifyTitle t))) := by
    unfold proxy
    simp only [generatePreContent, if_true, jsTruthyOpt, Bool.not_false, hhead, Bool.not_true,
      Bool.true_and, h]
  rw [hresp, hget_hset_self]

/-- C6 witness: head `<title>Home</title>` in partial mode yields an
`X-Header-Updates` value equal to `eyJ0aXRsZSI6IkhvbWUifQ==`, the base64
encoding of `{"title":"Home"}`. -/
theorem xHeaderUpdates_title_witness :
    extractTitle ("<title>Home</title>".toList) = some ("Home".toList) ∧
    hget (proxy ("x".toList) true ⟨"<title>Home</title>".toList, "B".toList, []⟩).resp.headers
      ("X-Header-Updates".toList) = some ("eyJ0aXRsZSI6IkhvbWUifQ==".toList) ∧
    base64Encode (utf8Encode (jsonStringifyTitle ("Home".toList))) =
      ("eyJ0aXRsZSI6IkhvbWUifQ==".toList) := by
  refine ⟨by decide, ?_, by decide⟩
  rw [xHeaderUpdates_title ("x".toList) ⟨"<title>Home</title>".toList, "B".toList, []⟩
    ("Home".toList) (by decide)]
  decide
/-- C8: on the success path the finalized response's `Content-Length` header
is exactly the decimal byte length of the body it carries — the body as it
stands after any compression replaced it. -/
theorem contentLength_matches_body (sha1hex : List Nat → JStr)
    (gzipEncode brotliEncode : List Nat → List Nat) (compression : JStr)
    (acceptEncoding : Option JStr) (resp : PartialResponse) :
    hget (finalize sha1hex gzipEncode brotliEncode compression acceptEncoding resp).headers
        ("Content-Length".toList) =
      some ((Nat.repr (finalize sha1hex gzipEncode brotliEncode compression
        acceptEncoding resp).body.length).toList) := by
  unfold finalize
  dsimp only
  rw [hget_hset_self]

/-- C5: gzip is applied iff the configured method is `gzip` and the
`accept-encoding` header contains `gzip`; brotli iff the method is `br` and
the header contains `br`; the two conditions are never both true, the
applied method becomes the `Content-Encoding` header and the body is
replaced by its encoder's output, and otherwise — in particular whenever
the configured method is `none` — the body and the `Content-Encoding`
header are left untouched. -/
theorem compression_negotiation (sha1hex : List Nat → JStr)
    (gzipEncode brotliEncode : List Nat → List Nat) (compression : JStr)
    (acceptEncoding : Option JStr) (resp : PartialResponse) :
    ¬(((decide (compression = "gzip".toList) && optIncludes acceptEncoding ("gzip".toList)) = true) ∧
      ((decide (compression = "br".toList) && optIncludes acceptEncoding ("br".toList)) = true)) ∧
    (finalize sha1hex gzipEncode brotliEncode compression acceptEncoding resp).body =
      (if decide (compression = "gzip".toList) && optIncludes acceptEncoding ("gzip".toList) then
        gzipEncode resp.body
      else if decide (compression = "br".toList) && optIncludes acceptEncoding ("br".toList) then
        brotliEncode resp.body
      else resp.body) ∧
    hget (finalize sha1hex gzipEncode brotliEncode compression acceptEncoding resp).headers
        ("Content-Encoding".toList) =
      (if decide (compression = "gzip".toList) && optIncludes acceptEncoding ("gzip".toList) then
        some ("gzip".toList)
      else if decide (compression = "br".toList) && optIncludes acceptEncoding ("br".toList) then
        some ("br".toList)
      else hget resp.headers ("Content-Encoding".toList)) := by
  have hpass : hget (if hget (hset resp.headers ("ETag".toList) (sha1hex resp.body))
          ("Cache-Control".toList) = none then
        hset (hset resp.headers ("ETag".toList) (sha1hex resp.body)) ("Cache-Control".toList)
          ("public, max-age=3600".toList)
      else hset resp.headers ("ETag".toList) (sha1hex resp.body)) ("Content-Encoding".toList) =
      hget resp.headers ("Content-Encoding".toList) := by
    split
    · rw [hget_hset_ne _ _ _ _ (by decide), hget_hset_ne _ _ _ _ (by decide)]
    · rw [hget_hset_ne _ _ _ _ (by decide)]
  constructor
  · rintro ⟨hg, hb⟩
    rw [Bool.and_eq_true] at hg hb
    have h1 := of_decide_eq_true hg.1
    have h2 := of_decide_eq_true hb.1
    rw [h1] at h2
    exact absurd h2 (by decide)
  cases hg : (decide (compression = "gzip".toList) && optIncludes acceptEncoding ("gzip".toList)) with
  | true =>
    have hg2 := hg
    rw [Bool.and_eq_true] at hg2
    have hcomp : compression = "gzip".toList := of_decide_eq_true hg2.1
    have hb : (decide (compression = "br".toList) && optIncludes acceptEncoding ("br".toList))
        = false := by
      have hd : decide (compression = "br".toList) = false := by
        subst hcomp
        decide
      rw [hd, Bool.false_and]
    constructor
    · unfold finalize
      dsimp only
      rw [hg, hb]
      simp
    · unfold finalize
      dsimp only
      rw [hg, hb]
      simp only [if_true, if_false, Bool.false_eq_true, Bool.true_eq_false, ite_true, ite_false]
      rw [hget_hset_ne _ _ _ _ (by decide), hget_hset_self]
  | false =>
    cases hbr : (decide (compression = "br".toList) && optIncludes acceptEncoding ("br".toList)) with
    | true =>
      constructor
      · unfold finalize
        dsimp only
        rw [hg, hbr]
        simp
      · unfold finalize
        dsimp only
        rw [hg, hbr]
        simp only [if_true, if_false, Bool.false_eq_true, Bool.true_eq_false, ite_true, ite_false]
        rw [hget_hset_ne _ _ _ _ (by decide), hget_hset_self]
    | false =>
      constructor
      · unfold finalize
        dsimp only
        rw [hg, hbr]
        simp
      · unfold finalize
        dsimp only
        rw [hg, hbr]
        simp only [Bool.false_eq_true, ite_false]
        rw [hget_hset_ne _ _ _ _ (by decide)]
        exact hpass
theorem proxy_status (template : JStr) (awpc : Bool) (pd : PageData) :
    (proxy template awpc pd).resp.status = 200 := rfl

theorem finalize_status (sha1hex : List Nat → JStr) (gz brf : List Nat → List Nat)
    (compression : JStr) (ae : Option JStr) (resp : PartialResponse) :
    (finalize sha1hex gz brf compression ae resp).status = resp.status := rfl

/-- C4 counterexample: with no `serveStatic` configured, the request path
`/app.js` (extensioned, not the client-bundle literal) is not treated as
not-found: `url.pathname.match(serveStatic ?? '')` matches the empty
pattern, so the dispatcher resolves the request as a static file at the raw
pathname, and when `./app.js` is readable the client receives its contents
with status 200 instead of the claimed 404. -/
theorem dispatch_resolves_without_serveStatic :
    dispatch ⟨⟨none, none⟩, ⟨[]⟩⟩ ("/app.js".toList) =
      DispatchDecision.staticFile ("/app.js".toList) ∧
    dispatch ⟨⟨none, none⟩, ⟨[]⟩⟩ ("/app.js".toList) ≠ DispatchDecision.notFoundFile ∧
    (sentResponses ⟨⟨some ("none".toList), none⟩, ⟨[]⟩⟩ ("/app.js".toList) false
        (fun _ => none) (fun p => if p = "./app.js".toList then some [55] else none) none
        (fun _ => []) (fun b => b) (fun b => b) none).map PartialResponse.status = [200] := by
  decide

/-- C4 amended: when the configuration has no `serveStatic` set, an
extensioned non-bundle request is still resolved as a static file at the
raw pathname (the empty-pattern match always succeeds, so the
`throw new Error('Could not find file.')` branch is unreachable); the
client receives the uniform 404 exactly in case reading `'.' + pathname`
fails. -/
theorem dispatch_static_without_serveStatic (cfg : Config) (pathname : JStr)
    (h1 : cfg.server.serveStatic = none) (h2 : extname pathname ≠ [])
    (h3 : pathname ≠ clientBundlePath) :
    dispatch cfg pathname = DispatchDecision.staticFile pathname ∧
    ∀ (awpc : Bool) (handlers : Nat → Option PageData) (fsRead : JStr → Option (List Nat))
      (bundle : Option (List Nat)) (sha1hex : List Nat → JStr)
      (gz brf : List Nat → List Nat) (ae : Option JStr),
      fsRead ('.' :: pathname) = none →
        (sentResponses cfg pathname awpc handlers fsRead bundle sha1hex gz brf ae).map
          PartialResponse.status = [404] := by
  have hext : (extname pathname).isEmpty = false := by
    cases hx : extname pathname with
    | nil => exact absurd hx h2
    | cons a l => simp
  have hd : dispatch cfg pathname = DispatchDecision.staticFile pathname := by
    unfold dispatch jsMatchTruthy jsIncludes
    rw [h1]
    simp [hext, h3]
  refine ⟨hd, ?_⟩
  intro awpc handlers fsRead bundle sha1hex gz brf ae hread
  unfold sentResponses handleRequest serveStaticFile
  rw [hd]
  dsimp only
  rw [hread]
  simp

/-- C10: every `PartialResponse` produced by `handleRequest` — page path,
static path and client-bundle path — has status 200, and every response the
request loop writes to a client has status 200 or 404 (the finalizer
preserves the 200, the early responds inside `proxy` default to 200, and
the uniform error handler sends exactly 404); no other status exists. -/
theorem status_invariant (cfg : Config) (pathname : JStr) (awpc : Bool)
    (handlers : Nat → Option PageData) (fsRead : JStr → Option (List Nat))
    (bundle : Option (List Nat)) (sha1hex : List Nat → JStr)
    (gz brf : List Nat → List Nat) (ae : Option JStr) :
    ((handleRequest cfg pathname awpc handlers fsRead bundle).2.all
      (fun pr => pr.status == 200)) = true ∧
    ((sentResponses cfg pathname awpc handlers fsRead bundle sha1hex gz brf ae).all
      (fun r => r.status == 200 || r.status == 404)) = true := by
  have hmain : ((handleRequest cfg pathname awpc handlers fsRead bundle).2.all
      (fun pr => pr.status == 200)) = true := by
    unfold handleRequest serveStaticFile
    cases dispatch cfg pathname with
    | clientBundle => cases bundle <;> simp
    | staticFile p =>
      cases hf : fsRead ('.' :: p) with
      | none => simp [hf]
      | some bytes => simp [hf]
    | page i =>
      cases hh : handlers i with
      | none => simp [hh]
      | some pd =>
        cases hpg : cfg.router.pages[i]? with
        | none => simp [hh, hpg]
        | some pg => simp [hh, hpg, proxy_status]
    | notFoundFile => simp
    | notFoundRoute => simp
  refine ⟨hmain, ?_⟩
  unfold sentResponses
  dsimp only
  have hearly : ∀ (l : List JStr), ((l.map (fun b =>
      ({ status := 200, headers := ([] : HeadersMap), body := utf8Encode b }
        : PartialResponse))).all (fun r => r.status == 200 || r.status == 404)) = true := by
    intro l
    rw [List.all_eq_true]
    intro r hr
    obtain ⟨b, hb, rfl⟩ := List.mem_map.mp hr
    rfl
  cases hr2 : (handleRequest cfg pathname awpc handlers fsRead bundle).2 with
  | none =>
    simp only [hr2]
    rw [List.all_append, Bool.and_eq_true]
    exact ⟨hearly _, by rfl⟩
  | some pr =>
    have hst : pr.status = 200 := by
      rw [hr2] at hmain
      simpa using hmain
    simp only [hr2]
    rw [List.all_append, Bool.and_eq_true]
    refine ⟨hearly _, ?_⟩
    have hfs : (finalize sha1hex gz brf (normalizedCompression cfg) ae pr).status = 200 :=
      (finalize_status sha1hex gz brf (normalizedCompression cfg) ae pr).trans hst
    simp [hfs]
/-- C4 witness for the amended statement: with no `serveStatic`, path
`/app.js` dispatches to the raw static path, and an unreadable `./app.js`
yields exactly one 404 response. -/
theorem dispatch_static_without_serveStatic_witness :
    dispatch ⟨⟨none, none⟩, ⟨[]⟩⟩ ("/app.js".toList) =
      DispatchDecision.staticFile ("/app.js".toList) ∧
    (sentResponses ⟨⟨none, none⟩, ⟨[]⟩⟩ ("/app.js".toList) false (fun _ => none)
        (fun _ => none) none (fun _ => []) (fun b => b) (fun b => b) none).map
      PartialResponse.status = [404] := by
  have h := dispatch_static_without_serveStatic ⟨⟨none, none⟩, ⟨[]⟩⟩ ("/app.js".toList)
    rfl (by decide) (by decide)
  exact ⟨h.1, h.2 false (fun _ => none) (fun _ => none) none (fun _ => [])
    (fun b => b) (fun b => b) none rfl⟩

/-- C1 witness: the request path `/users/123` matches the pattern
`/users/:id`, and the theorem's right-hand side yields the equal segment
counts. -/
theorem canHandleRoute_correct_witness :
    canHandleRoute ("/users/123".toList) ("/users/:id".toList) = true ∧
    (jsSplit slashSep ("/users/123".toList)).length =
      (jsSplit slashSep ("/users/:id".toList)).length :=
  ⟨by decide,
    ((canHandleRoute_correct ("/users/123".toList) ("/users/:id".toList)).mp (by decide)).1⟩

/-- C2 witness for the amended statement: looking up `id` for request
`/users/123` against pattern `/users/:id` yields the captured value
`123`. -/
theorem routeParams_lookup_witness :
    jsObjGet (routeParams ("/users/123".toList) ("/users/:id".toList)) ("id".toList) =
      some (some ("123".toList)) := by
  rw [routeParams_lookup]
  decide

/-- C5 witness: with configured method `gzip` and `accept-encoding:
gzip, br`, the output carries `Content-Encoding: gzip` and the
gzip-encoded body; with method `none` no `Content-Encoding` appears. -/
theorem compression_negotiation_witness :
    hget (finalize (fun _ => []) (fun b => 0 :: b) (fun b => 1 :: b) ("gzip".toList)
        (some ("gzip, br".toList)) ⟨200, [7], []⟩).headers ("Content-Encoding".toList) =
      some ("gzip".toList) ∧
    (finalize (fun _ => []) (fun b => 0 :: b) (fun b => 1 :: b) ("gzip".toList)
        (some ("gzip, br".toList)) ⟨200, [7], []⟩).body = [0, 7] ∧
    hget (finalize (fun _ => []) (fun b => 0 :: b) (fun b => 1 :: b) ("none".toList)
        (some ("gzip, br".toList)) ⟨200, [7], []⟩).headers ("Content-Encoding".toList) =
      none := by
  have h1 := compression_negotiation (fun _ => []) (fun b => 0 :: b) (fun b => 1 :: b)
    ("gzip".toList) (some ("gzip, br".toList)) ⟨200, [7], []⟩
  have h2 := compression_negotiation (fun _ => []) (fun b => 0 :: b) (fun b => 1 :: b)
    ("none".toList) (some ("gzip, br".toList)) ⟨200, [7], []⟩
  refine ⟨?_, ?_, ?_⟩
  · rw [h1.2.2]
    decide
  · rw [h1.2.1]
    decide
  · rw [h2.2.2]
    decide

/-- C8 witness: a three-byte final body gets `Content-Length: 3`. -/
theorem contentLength_matches_body_witness :
    hget (finalize (fun _ => []) (fun b => b) (fun b => b) ("none".toList) none
        ⟨200, [7, 8, 9], []⟩).headers ("Content-Length".toList) = some ("3".toList) := by
  rw [contentLength_matches_body]
  decide

/-- C10 witness: a request the dispatcher cannot satisfy produces exactly
the 404 response, within the 200-or-404 envelope. -/
theorem status_invariant_witness :
    ((sentResponses ⟨⟨none, none⟩, ⟨[]⟩⟩ ("/x".toList) false (fun _ => none) (fun _ => none)
        none (fun _ => []) (fun b => b) (fun b => b) none).all
      (fun r => r.status == 200 || r.status == 404)) = true :=
  (status_invariant ⟨⟨none, none⟩, ⟨[]⟩⟩ ("/x".toList) false (fun _ => none) (fun _ => none)
    none (fun _ => []) (fun b => b) (fun b => b) none).2
